import Mathlib

set_option maxHeartbeats 1000000

/-!
# Verification of the humantime-serde field codec

Shallow embedding of `src/lib.rs` and `src/option.rs` of the humantime-serde
crate, together with the behaviour of the external collaborators the crate
delegates to (the humantime duration grammar, chrono's RFC 3339
parser/formatter, and the serde data-model calls), at the level of detail the
crate observes.

Conventions:
* Rust `u64` arithmetic is `Nat` with explicit checks against `2^64`
  (`chkAdd` / `chkMul` model `checked_add` / `checked_mul`).
* fallible operations return `Option` / `Except`.
* serde's push-based write side is reified as the `SerOut` tree of calls made
  on the host serializer; the visitor-based read side takes a `DValue`, the
  host format's self-described input value.
-/

/-! ## Character classes used by the external parsers -/

/-- Rust pattern `'0'..='9'`. -/
def isDig (c : Char) : Bool := 48 ≤ c.toNat && c.toNat ≤ 57

/-- Rust pattern `'a'..='z' | 'A'..='Z'`. -/
def isAsciiAlpha (c : Char) : Bool :=
  (97 ≤ c.toNat && c.toNat ≤ 122) || (65 ≤ c.toNat && c.toNat ≤ 90)

/-- Rust `char::is_whitespace`: the Unicode White_Space code points. -/
def rustWs (c : Char) : Bool :=
  (9 ≤ c.toNat && c.toNat ≤ 13) || c.toNat == 32 || c.toNat == 133 ||
  c.toNat == 160 || c.toNat == 5760 || (8192 ≤ c.toNat && c.toNat ≤ 8202) ||
  c.toNat == 8232 || c.toNat == 8233 || c.toNat == 8239 || c.toNat == 8287 ||
  c.toNat == 12288

/-- The character for a single decimal digit value. -/
def digitChar (k : Nat) : Char := Char.ofNat (48 + k)

/-! ## Decimal rendering (Rust `{}` formatting of unsigned integers) -/

/-- Fuel-driven decimal rendering; `fuel > n` makes it total. -/
def natDecimalAux : Nat → Nat → List Char
  | 0, _ => []
  | fuel + 1, n =>
    if n < 10 then [digitChar n]
    else natDecimalAux fuel (n / 10) ++ [digitChar (n % 10)]

/-- Decimal digits of `n`, most significant first, no leading zeros. -/
def natDecimal (n : Nat) : List Char := natDecimalAux (n + 1) n

/-! ## `std::time::Duration` -/

/-- Model of `std::time::Duration`: whole seconds (`u64` in Rust, so `< 2^64`) plus
sub-second nanoseconds (`< 10^9`). -/
structure Duration where
  secs : Nat
  nanos : Nat
deriving DecidableEq

/-- Model of `u64::MAX + 1`. -/
def U64 : Nat := 18446744073709551616

/-- Model of `u64::checked_add`. -/
def chkAdd (a b : Nat) : Option Nat := if a + b < U64 then some (a + b) else none

/-- Model of `u64::checked_mul`. -/
def chkMul (a b : Nat) : Option Nat := if a * b < U64 then some (a * b) else none

/-- Model of `std::time::Duration::new`: carries surplus nanoseconds into the seconds
field. Rust panics when that carry overflows `u64`; the panic is modelled as
`none`. -/
def durationNew (secs nanos : Nat) : Option Duration :=
  if nanos < 1000000000 then some ⟨secs, nanos⟩
  else if secs + nanos / 1000000000 < U64 then
    some ⟨secs + nanos / 1000000000, nanos % 1000000000⟩
  else none

/-! ## humantime::parse_duration

The crate delegates duration decoding to `humantime::parse_duration`
(an external collaborator, §6 of the spec).  The grammar is a sequence of
`<decimal value><unit>` items, with Unicode whitespace allowed between
digits, before units and between items.  All arithmetic is checked `u64`
arithmetic.  The crate discards the error detail (`.map_err(|_| ...)`), so
the model returns `Option`. -/

/-- One arm of humantime's unit table: the seconds/nanoseconds contribution of
`n` units named `unit`, with checked multiplication. -/
def unitSecNsec (n : Nat) (unit : String) : Option (Nat × Nat) :=
  if unit = "nanos" ∨ unit = "nsec" ∨ unit = "ns" then some (0, n)
  else if unit = "usec" ∨ unit = "us" then (chkMul n 1000).map fun x => (0, x)
  else if unit = "millis" ∨ unit = "msec" ∨ unit = "ms" then
    (chkMul n 1000000).map fun x => (0, x)
  else if unit = "seconds" ∨ unit = "second" ∨ unit = "secs" ∨ unit = "sec" ∨
      unit = "s" then some (n, 0)
  else if unit = "minutes" ∨ unit = "minute" ∨ unit = "min" ∨ unit = "mins" ∨
      unit = "m" then (chkMul n 60).map fun x => (x, 0)
  else if unit = "hours" ∨ unit = "hour" ∨ unit = "hr" ∨ unit = "hrs" ∨
      unit = "h" then (chkMul n 3600).map fun x => (x, 0)
  else if unit = "days" ∨ unit = "day" ∨ unit = "d" then
    (chkMul n 86400).map fun x => (x, 0)
  else if unit = "weeks" ∨ unit = "week" ∨ unit = "w" then
    (chkMul n 604800).map fun x => (x, 0)
  else if unit = "months" ∨ unit = "month" ∨ unit = "M" then
    (chkMul n 2630016).map fun x => (x, 0)
  else if unit = "years" ∨ unit = "year" ∨ unit = "y" then
    (chkMul n 31557600).map fun x => (x, 0)
  else none

/-- humantime `Parser::parse_unit`: fold one item into the running
`(secs, nanos)` pair, reducing nanoseconds that exceed one second. -/
def parseUnit (cur : Nat × Nat) (n : Nat) (unit : String) : Option (Nat × Nat) :=
  match unitSecNsec n unit with
  | none => none
  | some (sec, nsec0) =>
    match chkAdd cur.2 nsec0 with
    | none => none
    | some nsec =>
      if 1000000000 < nsec then
        match chkAdd sec (nsec / 1000000000) with
        | none => none
        | some sec2 =>
          match chkAdd cur.1 sec2 with
          | none => none
          | some sec3 => some (sec3, nsec % 1000000000)
      else
        match chkAdd cur.1 sec with
        | none => none
        | some sec3 => some (sec3, nsec)

/-- The control points of humantime `Parser::parse`:
`start` is the initial `parse_first_char` (empty input is `Error::Empty`),
`digits n` the number-accumulation loop, `unit n acc` the unit-letter loop
(`acc` is the slice `src[start..off]`), and `next` the `parse_first_char`
call between items (empty input finishes the parse). -/
inductive PMode where
  | start
  | digits (n : Nat)
  | unit (n : Nat) (acc : List Char)
  | next

/-- humantime `Parser::parse` as a character-at-a-time state machine. -/
def parseStep (cur : Nat × Nat) (m : PMode) : List Char → Option Duration
  | [] =>
    match m with
    | .start => none
    | .digits n =>
      match parseUnit cur n (String.mk []) with
      | some cur2 => durationNew cur2.1 cur2.2
      | none => none
    | .unit n acc =>
      match parseUnit cur n (String.mk acc) with
      | some cur2 => durationNew cur2.1 cur2.2
      | none => none
    | .next => durationNew cur.1 cur.2
  | c :: rest =>
    match m with
    | .start =>
      if isDig c then parseStep cur (.digits (c.toNat - 48)) rest
      else if rustWs c then parseStep cur .start rest
      else none
    | .digits n =>
      if isDig c then
        match chkMul n 10 with
        | some x =>
          match chkAdd x (c.toNat - 48) with
          | some n2 => parseStep cur (.digits n2) rest
          | none => none
        | none => none
      else if rustWs c then parseStep cur (.digits n) rest
      else if isAsciiAlpha c then parseStep cur (.unit n [c]) rest
      else none
    | .unit n acc =>
      if isDig c then
        match parseUnit cur n (String.mk acc) with
        | some cur2 => parseStep cur2 (.digits (c.toNat - 48)) rest
        | none => none
      else if rustWs c then
        match parseUnit cur n (String.mk acc) with
        | some cur2 => parseStep cur2 .next rest
        | none => none
      else if isAsciiAlpha c then parseStep cur (.unit n (acc ++ [c])) rest
      else none
    | .next =>
      if isDig c then parseStep cur (.digits (c.toNat - 48)) rest
      else if rustWs c then parseStep cur .next rest
      else none

/-- Model of `humantime::parse_duration`. -/
def parseDuration (s : String) : Option Duration :=
  parseStep (0, 0) .start s.data

/-! ## humantime::format_duration -/

/-- The `item`/`item_plural` loop of humantime's `Display for
FormattedDuration`: zero-valued items are skipped, a single space separates
the items that are written, tracked by the `started` flag.  The plural `"s"`
of `item_plural` is already folded into the unit name by `plural` below. -/
def fmtItems (started : Bool) : List (Nat × String) → List Char
  | [] => []
  | (v, u) :: rest =>
    if 0 < v then
      (if started then [' '] else []) ++ natDecimal v ++ u.data ++ fmtItems true rest
    else fmtItems started rest

/-- Model of `item_plural`'s unit name: the base name, with `"s"` appended when the
value exceeds one. -/
def plural (base : String) (v : Nat) : String := if 1 < v then base ++ "s" else base

/-- The nine value/unit items of humantime's formatter, in print order: the
seconds decomposed year/month/day/hour/minute/second (year = 365.25 days,
month = 30.44 days), the nanoseconds decomposed milli/micro/nano. -/
def durationItems (d : Duration) : List (Nat × String) :=
  [(d.secs / 31557600, plural "year" (d.secs / 31557600)),
   (d.secs % 31557600 / 2630016, plural "month" (d.secs % 31557600 / 2630016)),
   (d.secs % 31557600 % 2630016 / 86400,
     plural "day" (d.secs % 31557600 % 2630016 / 86400)),
   (d.secs % 31557600 % 2630016 % 86400 / 3600, "h"),
   (d.secs % 31557600 % 2630016 % 86400 % 3600 / 60, "m"),
   (d.secs % 31557600 % 2630016 % 86400 % 60, "s"),
   (d.nanos / 1000000, "ms"),
   (d.nanos / 1000 % 1000, "us"),
   (d.nanos % 1000, "ns")]

/-- Model of `humantime::format_duration`: the zero duration prints `"0s"`; otherwise
the non-zero items are printed in order, space-separated. -/
def formatDuration (d : Duration) : String :=
  if d.secs == 0 && d.nanos == 0 then "0s"
  else String.mk (fmtItems false (durationItems d))

/-! ### Specification views of the parser/formatter pair, used by the
round-trip proof -/

/-- Fold the digit characters of `l` onto the accumulator `n`, as the
parser's number loop does. -/
def valAcc (n : Nat) (l : List Char) : Nat :=
  l.foldl (fun a c => a * 10 + (c.toNat - 48)) n

/-- The character stream `fmtItems` produces once zero items are filtered
out: items separated by single spaces. -/
def renderItems : List (Nat × String) → List Char
  | [] => []
  | (v, u) :: rest =>
    natDecimal v ++ u.data ++ (if rest.isEmpty then [] else ' ' :: renderItems rest)

/-- The seconds contribution of one item (0 when the unit is unknown or the
checked multiply overflows). -/
def rawSec (p : Nat × String) : Nat :=
  match unitSecNsec p.1 p.2 with
  | some (a, _) => a
  | none => 0

/-- The nanoseconds contribution of one item. -/
def rawNsec (p : Nat × String) : Nat :=
  match unitSecNsec p.1 p.2 with
  | some (_, b) => b
  | none => 0

def secSum (l : List (Nat × String)) : Nat := (l.map rawSec).sum

def nsecSum (l : List (Nat × String)) : Nat := (l.map rawNsec).sum

/-- An item the round-trip argument can consume: a non-empty all-letter unit
known to the unit table, whose value is dominated by its own contribution. -/
def goodItem (p : Nat × String) : Prop :=
  p.2.data ≠ [] ∧ p.2.data.all isAsciiAlpha = true ∧
  ∃ cs cn, unitSecNsec p.1 p.2 = some (cs, cn) ∧ (p.1 ≤ cs ∨ p.1 ≤ cn)

/-! ## chrono: naive civil date-times and RFC 3339

The crate delegates all timestamp handling to chrono (an external
collaborator, §6 of the spec): `DateTime::parse_from_rfc3339` for decoding
and `to_rfc3339_opts(SecondsFormat::Secs, true)` for encoding.  chrono's
`DateTime<Tz>` stores a *naive UTC* civil date-time plus the offset;
`PartialEq` compares only the naive UTC part (the instant), and `to_utc`
keeps the naive UTC part and replaces the offset by zero. -/

/-- chrono `NaiveDateTime` (naive civil date-time): calendar date, seconds
of day (`< 86400`), and nanoseconds.  A leap second is carried as
`nanos ≥ 10^9` on second 59, exactly as in chrono. -/
structure NaiveDT where
  year : Int
  month : Nat
  day : Nat
  secs : Nat
  nanos : Nat
deriving DecidableEq

/-- chrono `DateTime<FixedOffset>`: naive UTC date-time plus the fixed
offset in seconds. -/
structure DateTimeFO where
  dt : NaiveDT
  offset : Int
deriving DecidableEq

/-- Proleptic Gregorian leap year. -/
def isLeapYear (y : Int) : Bool := (y % 4 == 0 && y % 100 != 0) || y % 400 == 0

/-- Days in a month of the proleptic Gregorian calendar; `0` for an invalid
month number. -/
def daysInMonth (y : Int) (m : Nat) : Nat :=
  match m with
  | 1 => 31
  | 2 => if isLeapYear y then 29 else 28
  | 3 => 31
  | 4 => 30
  | 5 => 31
  | 6 => 30
  | 7 => 31
  | 8 => 31
  | 9 => 30
  | 10 => 31
  | 11 => 30
  | 12 => 31
  | _ => 0

/-- The calendar day after `(y, m, d)`. -/
def dateSucc (y : Int) (m d : Nat) : Int × Nat × Nat :=
  if d < daysInMonth y m then (y, m, d + 1)
  else if m < 12 then (y, m + 1, 1)
  else (y + 1, 1, 1)

/-- The calendar day before `(y, m, d)`. -/
def datePred (y : Int) (m d : Nat) : Int × Nat × Nat :=
  if 1 < d then (y, m, d - 1)
  else if 1 < m then (y, m - 1, daysInMonth y (m - 1))
  else (y - 1, 12, 31)

/-- Shift a civil date-time by `delta` seconds, `|delta| < 86400` (the only
use chrono makes of it here: applying or removing a timezone offset).  The
date rolls over by at most one day; nanoseconds are untouched. -/
def addSecsDT (dt : NaiveDT) (delta : Int) : NaiveDT :=
  if (dt.secs : Int) + delta < 0 then
    ⟨(datePred dt.year dt.month dt.day).1, (datePred dt.year dt.month dt.day).2.1,
      (datePred dt.year dt.month dt.day).2.2, ((dt.secs : Int) + delta + 86400).toNat,
      dt.nanos⟩
  else if 86400 ≤ (dt.secs : Int) + delta then
    ⟨(dateSucc dt.year dt.month dt.day).1, (dateSucc dt.year dt.month dt.day).2.1,
      (dateSucc dt.year dt.month dt.day).2.2, ((dt.secs : Int) + delta - 86400).toNat,
      dt.nanos⟩
  else
    ⟨dt.year, dt.month, dt.day, ((dt.secs : Int) + delta).toNat, dt.nanos⟩

/-- A well-formed civil date-time: month and day within the proleptic
Gregorian calendar and seconds-of-day below 86400. -/
def validDT (d : NaiveDT) : Prop :=
  1 ≤ d.month ∧ d.month ≤ 12 ∧ 1 ≤ d.day ∧ d.day ≤ daysInMonth d.year d.month ∧
  d.secs < 86400

instance (d : NaiveDT) : Decidable (validDT d) := by unfold validDT; infer_instance

/-! ### RFC 3339 scanning (chrono `format::parse::parse_rfc3339` and
`format::scan`) -/

/-- Read one ASCII digit. -/
def digitVal (c : Char) : Option Nat :=
  if isDig c then some (c.toNat - 48) else none

/-- Model of `scan::number(s, 2, 2)`: exactly two digits. -/
def read2 : List Char → Option (Nat × List Char)
  | a :: b :: rest =>
    match digitVal a, digitVal b with
    | some x, some y => some (x * 10 + y, rest)
    | _, _ => none
  | _ => none

/-- Model of `scan::number(s, 4, 4)`: exactly four digits. -/
def read4 : List Char → Option (Nat × List Char)
  | a :: b :: c :: d :: rest =>
    match digitVal a, digitVal b, digitVal c, digitVal d with
    | some w, some x, some y, some z => some (w * 1000 + x * 100 + y * 10 + z, rest)
    | _, _, _, _ => none
  | _ => none

def expectChar (c : Char) : List Char → Option (List Char)
  | x :: rest => if x = c then some rest else none
  | [] => none

/-- Model of `scan::nanosecond`: at least one digit; the first nine digits are scaled
to a nanosecond count, further digits are consumed and ignored. -/
def readNanosAux : List Char → Nat → Nat → Option (Nat × List Char)
  | l, acc, 0 =>
    -- nine digits consumed: skip any remaining digits
    match l with
    | c :: rest => if isDig c then readNanosAux rest acc 0 else some (acc, l)
    | [] => some (acc, l)
  | l, acc, k + 1 =>
    match l with
    | c :: rest =>
      if isDig c then readNanosAux rest (acc * 10 + (c.toNat - 48)) k
      else some (acc * 10 ^ (k + 1), l)
    | [] => some (acc * 10 ^ (k + 1), l)

def readNanos : List Char → Option (Nat × List Char)
  | c :: rest =>
    if isDig c then readNanosAux rest (c.toNat - 48) 8
    else none
  | [] => none

/-- The optional fraction after the seconds: a `'.'` introduces mandatory
fraction digits, anything else leaves zero nanoseconds. -/
def readFrac : List Char → Option (Nat × List Char)
  | '.' :: l12 => readNanos l12
  | l => some (0, l)

/-- Model of `scan::timezone_offset` with mandatory colon and `Z`/`z` allowed,
followed by chrono's `FixedOffset::east_opt` bound `|offset| < 86400`. -/
def readOffset : List Char → Option (Int × List Char)
  | [] => none
  | c :: rest =>
    if c = 'Z' ∨ c = 'z' then some (0, rest)
    else if c = '+' ∨ c = '-' then
      match read2 rest with
      | some (hh, rest2) =>
        match expectChar ':' rest2 with
        | some rest3 =>
          match read2 rest3 with
          | some (mm, rest4) =>
            let secs : Nat := hh * 3600 + mm * 60
            if secs < 86400 then
              some (if c = '-' then -(secs : Int) else (secs : Int), rest4)
            else none
          | none => none
        | none => none
      | none => none
    else none

/-- Model of `DateTime::parse_from_rfc3339`: `YYYY-MM-DD` then `T`/`t`/space then
`HH:MM:SS`, an optional fraction, and an offset; the whole input must be
consumed.  Field validation follows chrono's `Parsed::to_datetime`: month and
day against the calendar, hour ≤ 23, minute ≤ 59, second ≤ 60 with 60
folded into a leap second on second 59.  The result is the naive *UTC*
date-time (local minus offset) paired with the offset. -/
def parseRfc3339 (s : String) : Option DateTimeFO :=
  match read4 s.data with
  | none => none
  | some (y, l1) =>
    match expectChar '-' l1 with
    | none => none
    | some l2 =>
      match read2 l2 with
      | none => none
      | some (mo, l3) =>
        match expectChar '-' l3 with
        | none => none
        | some l4 =>
          match read2 l4 with
          | none => none
          | some (d, l5) =>
            match l5 with
            | [] => none
            | sep :: l6 =>
              if sep = 'T' ∨ sep = 't' ∨ sep = ' ' then
                match read2 l6 with
                | none => none
                | some (h, l7) =>
                  match expectChar ':' l7 with
                  | none => none
                  | some l8 =>
                    match read2 l8 with
                    | none => none
                    | some (mi, l9) =>
                      match expectChar ':' l9 with
                      | none => none
                      | some l10 =>
                        match read2 l10 with
                        | none => none
                        | some (se, l11) =>
                          match readFrac l11 with
                          | none => none
                          | some (nano, l13) =>
                            match readOffset l13 with
                            | none => none
                            | some (off, l14) =>
                              if l14 = [] ∧ 1 ≤ mo ∧ mo ≤ 12 ∧ 1 ≤ d ∧
                                  d ≤ daysInMonth (y : Int) mo ∧ h ≤ 23 ∧
                                  mi ≤ 59 ∧ se ≤ 60 then
                                let se2 := if se == 60 then 59 else se
                                let nano2 := if se == 60 then nano + 1000000000 else nano
                                let lo : NaiveDT :=
                                  ⟨(y : Int), mo, d, h * 3600 + mi * 60 + se2, nano2⟩
                                some ⟨addSecsDT lo (-off), off⟩
                              else none
              else none

/-! ### RFC 3339 rendering (chrono `write_rfc3339` with
`SecondsFormat::Secs` and `use_z = true`) -/

/-- Two-digit zero-padded field (the value is below 100 at every use). -/
def pad2 (n : Nat) : List Char := [digitChar (n / 10 % 10), digitChar (n % 10)]

/-- Four-digit zero-padded field. -/
def pad4 (n : Nat) : List Char :=
  [digitChar (n / 1000 % 10), digitChar (n / 100 % 10), digitChar (n / 10 % 10),
   digitChar (n % 10)]

/-- Year rendering: four zero-padded digits for 0..=9999; chrono writes years
outside that range in the expanded ISO 8601 form with an explicit sign (which
RFC 3339's fixed four-digit grammar cannot read back). -/
def yearChars (y : Int) : List Char :=
  if 0 ≤ y ∧ y ≤ 9999 then pad4 y.toNat
  else (if y < 0 then '-' else '+') :: natDecimal y.natAbs

/-- Offset rendering with `use_z = true`: the literal `Z` exactly for a zero
offset, otherwise sign, two-digit hours, colon, two-digit minutes (leftover
offset seconds are not representable and are dropped by the `/ 60`). -/
def offsetChars (off : Int) : List Char :=
  if off = 0 then ['Z']
  else
    (if off < 0 then '-' else '+') ::
      (pad2 (off.natAbs / 3600) ++ ':' :: pad2 (off.natAbs % 3600 / 60))

/-- The date-time part of `write_rfc3339` at seconds precision on the local
(offset-applied) civil value; a stored leap second prints as second 60. -/
def dtChars (lo : NaiveDT) : List Char :=
  yearChars lo.year ++ '-' :: pad2 lo.month ++ '-' :: pad2 lo.day ++
    'T' :: pad2 (lo.secs / 3600) ++ ':' :: pad2 (lo.secs % 3600 / 60) ++
    ':' :: pad2 (lo.secs % 60 + (if 1000000000 ≤ lo.nanos then 1 else 0))

/-- chrono `to_rfc3339_opts(SecondsFormat::Secs, true)` on a naive UTC
date-time and an offset: render the local value, then the offset. -/
def toRfc3339Secs (utc : NaiveDT) (off : Int) : String :=
  String.mk (dtChars (addSecsDT utc off) ++ offsetChars off)

/-! ## The serde boundary

The write side is reified as the tree of calls the code makes on the host
serializer (`serialize_str`, `serialize_some`, `serialize_none`); the read
side receives the self-described input value of the host format and models
serde's visitor defaults (every visit method the visitor does not implement
raises `invalid_type`). -/

/-- Calls made on the host serializer. -/
inductive SerOut where
  | sStr (s : String)
  | sSome (v : SerOut)
  | sNone
deriving DecidableEq

/-- The input value handed over by a self-describing host deserializer. -/
inductive DValue where
  | str (s : String)
  | int (n : Int)
  | bool (b : Bool)
  | null
deriving DecidableEq

def DValue.isStr : DValue → Bool
  | .str _ => true
  | _ => false

/-- serde `de::Unexpected`. -/
inductive Unexpected where
  | str (s : String)
  | signed (n : Int)
  | boolean (b : Bool)
  | unit
deriving DecidableEq

/-- The deserialization errors this code can raise: `Error::invalid_value`
(from the `visit_str` bodies) and `Error::invalid_type` (from the visitor
default methods), each carrying the unexpected input and the visitor's
`expecting` description. -/
inductive DeError where
  | invalidValue (unexp : Unexpected) (expecting : String)
  | invalidType (unexp : Unexpected) (expecting : String)
deriving DecidableEq

/-! ## The `Serde<T>` wrapper (`src/lib.rs`) -/

/-- Model of `pub struct Serde<T>(T);` -/
structure Serde (α : Type) where
  val : α
deriving DecidableEq

/-- Model of `Serde::into_inner`. -/
def Serde.into_inner (w : Serde α) : α := w.val

/-- Model of `impl<T> From<T> for Serde<T>`. -/
def Serde.ofVal (v : α) : Serde α := ⟨v⟩

/-- The derive list on `Serde<T>`:
`#[derive(Copy, Clone, Eq, Hash, PartialEq)]`. -/
def serdeDerives : List String := ["Copy", "Clone", "Eq", "Hash", "PartialEq"]

/-- Model of `impl<T: Debug> Debug for Serde<T>`: `self.0.fmt(formatter)` — the
rendering is exactly the inner value's rendering. -/
def serdeDebugFmt (fmtInner : α → String) (w : Serde α) : String := fmtInner w.val

/-- The derived `PartialEq`: field-wise, i.e. compare the inner values. -/
def serdeBeq (beqInner : α → α → Bool) (a b : Serde α) : Bool := beqInner a.val b.val

/-- The derived `Hash`: hash the single field, i.e. the inner value's
hash stream. -/
def serdeHash (hashInner : α → Nat) (w : Serde α) : Nat := hashInner w.val

/-! ### Deserialize impls -/

/-- Model of `impl Deserialize for Serde<Duration>`: `deserialize_str` with a visitor
whose `expecting` is `"a duration"` and whose only implemented visit method,
`visit_str`, runs `humantime::parse_duration` and maps any parse error to
`invalid_value(Str(v), "a duration")`. -/
def deDuration : DValue → Except DeError Duration
  | .str v =>
    match parseDuration v with
    | some dur => .ok dur
    | none => .error (.invalidValue (.str v) "a duration")
  | .int n => .error (.invalidType (.signed n) "a duration")
  | .bool b => .error (.invalidType (.boolean b) "a duration")
  | .null => .error (.invalidType (.unit) "a duration")

/-- Model of `impl Deserialize for Serde<DateTime<Utc>>`: `expecting` is
`"a timestamp"`; `visit_str` runs `DateTime::parse_from_rfc3339` and then
`.to_utc()`, which keeps the naive UTC part and drops the offset. -/
def deUtc : DValue → Except DeError NaiveDT
  | .str v =>
    match parseRfc3339 v with
    | some fo => .ok fo.dt
    | none => .error (.invalidValue (.str v) "a timestamp")
  | .int n => .error (.invalidType (.signed n) "a timestamp")
  | .bool b => .error (.invalidType (.boolean b) "a timestamp")
  | .null => .error (.invalidType (.unit) "a timestamp")

/-- Model of `impl Deserialize for Serde<DateTime<FixedOffset>>`: as `deUtc` but the
parsed offset is kept as-is. -/
def deFixed : DValue → Except DeError DateTimeFO
  | .str v =>
    match parseRfc3339 v with
    | some fo => .ok fo
    | none => .error (.invalidValue (.str v) "a timestamp")
  | .int n => .error (.invalidType (.signed n) "a timestamp")
  | .bool b => .error (.invalidType (.boolean b) "a timestamp")
  | .null => .error (.invalidType (.unit) "a timestamp")

/-! ### Serialize impls -/

/-- Model of `impl Serialize for Serde<&Duration>`:
`humantime::format_duration(*self.0).to_string().serialize(serializer)`. -/
def serDurationRef (w : Serde Duration) : SerOut := .sStr (formatDuration w.val)

/-- Model of `impl Serialize for Serde<Duration>` (same body, owned value). -/
def serDuration (w : Serde Duration) : SerOut := .sStr (formatDuration w.val)

/-- Model of `impl Serialize for Serde<&DateTime<Utc>>`:
`self.0.to_rfc3339_opts(SecondsFormat::Secs, true)` — the `Utc` offset is
zero. -/
def serUtcRef (w : Serde NaiveDT) : SerOut := .sStr (toRfc3339Secs w.val 0)

/-- Model of `impl Serialize for Serde<DateTime<Utc>>` (same body, owned value). -/
def serUtc (w : Serde NaiveDT) : SerOut := .sStr (toRfc3339Secs w.val 0)

/-- Model of `impl Serialize for Serde<&DateTime<FixedOffset>>`: renders at the
stored offset. -/
def serFixedRef (w : Serde DateTimeFO) : SerOut :=
  .sStr (toRfc3339Secs w.val.dt w.val.offset)

/-- Model of `impl Serialize for Serde<DateTime<FixedOffset>>` (same body). -/
def serFixed (w : Serde DateTimeFO) : SerOut :=
  .sStr (toRfc3339Secs w.val.dt w.val.offset)

/-! ### Option impls -/

/-- serde's built-in `Option<T>` deserialization at a self-describing
format: null deserializes to `None`, anything else delegates to `T` and
wraps the result in `Some`. -/
def optionDe (de : DValue → Except DeError α) : DValue → Except DeError (Option α)
  | .null => .ok none
  | v => (de v).map some

/-- An optional *field* at the host boundary: an absent field is filled in
by the host's `#[serde(default)]` with `None` without calling this crate;
a present field goes through `Option` deserialization. -/
def optionFieldDe (de : DValue → Except DeError α) :
    Option DValue → Except DeError (Option α)
  | none => .ok none
  | some v => optionDe de v

/-- serde's built-in `Option<T>` serialization: `serialize_some` around the
inner value, or `serialize_none`. -/
def optionSerBuiltin (ser : α → SerOut) : Option α → SerOut
  | some x => .sSome (ser x)
  | none => .sNone

/-- Model of `option::serialize` (`src/option.rs`): wrap the borrowed inner value as
`Option<Serde<&T>>` and hand it to serde's `Option` serialization. -/
def optionModSerialize (ser : Serde α → SerOut) (d : Option α) : SerOut :=
  optionSerBuiltin ser (d.map Serde.ofVal)

/-- Model of `option::deserialize` (`src/option.rs`): deserialize
`Option<Serde<T>>`, then strip the wrapper with `into_inner`. -/
def optionModDeserialize (de : DValue → Except DeError (Serde α)) (v : DValue) :
    Except DeError (Option α) :=
  (optionDe de v).map (fun got => got.map Serde.into_inner)

/-- Model of `impl Serialize for Serde<&Option<Duration>>`: `serialize_some` of a
re-wrapped `Serde(dur)` for `Some`, `serialize_none` for `None`. -/
def serOptDurationRef (w : Serde (Option Duration)) : SerOut :=
  match w.val with
  | some dur => .sSome (serDuration (Serde.ofVal dur))
  | none => .sNone

/-- Model of `impl Serialize for Serde<&Option<DateTime<Utc>>>`. -/
def serOptUtcRef (w : Serde (Option NaiveDT)) : SerOut :=
  match w.val with
  | some tm => .sSome (serUtc (Serde.ofVal tm))
  | none => .sNone

/-- Model of `impl Serialize for Serde<&Option<DateTime<FixedOffset>>>`. -/
def serOptFixedRef (w : Serde (Option DateTimeFO)) : SerOut :=
  match w.val with
  | some tm => .sSome (serFixed (Serde.ofVal tm))
  | none => .sNone

/-- Model of `impl Deserialize for Serde<Option<Duration>>`: deserialize
`Option<Serde<Duration>>` and re-wrap. -/
def deOptDuration (v : DValue) : Except DeError (Serde (Option Duration)) :=
  match optionDe (fun v => (deDuration v).map Serde.ofVal) v with
  | .ok (some w) => .ok (Serde.ofVal (some w.val))
  | .ok none => .ok (Serde.ofVal none)
  | .error e => .error e

/-! ## Round-trip lemmas for the duration grammar -/

/-! Step equations for `parseStep`, each holding by `rfl`. -/

theorem parseStep_start_cons (cur : Nat × Nat) (c : Char) (rest : List Char) :
    parseStep cur .start (c :: rest) =
    (if isDig c then parseStep cur (.digits (c.toNat - 48)) rest
     else if rustWs c then parseStep cur .start rest
     else none) := rfl

theorem parseStep_digits_cons (cur : Nat × Nat) (n : Nat) (c : Char) (rest : List Char) :
    parseStep cur (.digits n) (c :: rest) =
    (if isDig c then
      match chkMul n 10 with
      | some x =>
        match chkAdd x (c.toNat - 48) with
        | some n2 => parseStep cur (.digits n2) rest
        | none => none
      | none => none
    else if rustWs c then parseStep cur (.digits n) rest
    else if isAsciiAlpha c then parseStep cur (.unit n [c]) rest
    else none) := rfl

theorem parseStep_unit_nil (cur : Nat × Nat) (n : Nat) (acc : List Char) :
    parseStep cur (.unit n acc) [] =
    (match parseUnit cur n (String.mk acc) with
     | some cur2 => durationNew cur2.1 cur2.2
     | none => none) := rfl

theorem parseStep_unit_cons (cur : Nat × Nat) (n : Nat) (acc : List Char) (c : Char)
    (rest : List Char) :
    parseStep cur (.unit n acc) (c :: rest) =
    (if isDig c then
      match parseUnit cur n (String.mk acc) with
      | some cur2 => parseStep cur2 (.digits (c.toNat - 48)) rest
      | none => none
    else if rustWs c then
      match parseUnit cur n (String.mk acc) with
      | some cur2 => parseStep cur2 .next rest
      | none => none
    else if isAsciiAlpha c then parseStep cur (.unit n (acc ++ [c])) rest
    else none) := rfl

theorem parseStep_next_nil (cur : Nat × Nat) :
    parseStep cur .next [] = durationNew cur.1 cur.2 := rfl

theorem parseStep_next_cons (cur : Nat × Nat) (c : Char) (rest : List Char) :
    parseStep cur .next (c :: rest) =
    (if isDig c then parseStep cur (.digits (c.toNat - 48)) rest
     else if rustWs c then parseStep cur .next rest
     else none) := rfl

theorem bool_false_neg {b : Bool} (h : b = false) : ¬ b = true := by simp [h]

theorem stringMk_data (u : String) : String.mk u.data = u := by cases u; rfl

theorem digitChar_toNat : ∀ k, k < 10 → (digitChar k).toNat = 48 + k := by decide

theorem isDig_digitChar : ∀ k, k < 10 → isDig (digitChar k) = true := by decide

theorem alpha_not_dig {c : Char} (h : isAsciiAlpha c = true) :
    isDig c = false ∧ rustWs c = false := by
  simp [isAsciiAlpha] at h
  constructor
  · simp [isDig]; omega
  · simp [rustWs]; omega

theorem dig_not_ws {c : Char} (h : isDig c = true) : rustWs c = false := by
  simp [isDig] at h
  simp [rustWs]
  omega

theorem natDecimalAux_fuel (n : Nat) : ∀ f1 f2, n < f1 → n < f2 →
    natDecimalAux f1 n = natDecimalAux f2 n := by
  induction n using Nat.strong_induction_on with
  | _ n ih =>
    intro f1 f2 h1 h2
    match f1, h1 with
    | f1 + 1, _ =>
      match f2, h2 with
      | f2 + 1, _ =>
        simp only [natDecimalAux]
        split
        · rfl
        · rw [ih (n / 10) (by omega) f1 f2 (by omega) (by omega)]

theorem valAcc_append (a : Nat) (l1 l2 : List Char) :
    valAcc a (l1 ++ l2) = valAcc (valAcc a l1) l2 := by
  simp [valAcc, List.foldl_append]

theorem natDecimal_spec (n : Nat) :
    (natDecimal n).all isDig = true ∧ natDecimal n ≠ [] ∧ valAcc 0 (natDecimal n) = n := by
  induction n using Nat.strong_induction_on with
  | _ n ih =>
    unfold natDecimal natDecimalAux
    split
    · refine ⟨by simpa using isDig_digitChar n (by omega), by simp, ?_⟩
      simp [valAcc, digitChar_toNat n (by omega)]
    · have h10 : 10 ≤ n := by omega
      have hf : natDecimalAux n (n / 10) = natDecimal (n / 10) :=
        natDecimalAux_fuel (n / 10) n (n / 10 + 1) (by omega) (by omega)
      obtain ⟨ha, hne, hv⟩ := ih (n / 10) (by omega)
      rw [hf]
      refine ⟨?_, by simp, ?_⟩
      · simp only [List.all_append, ha, Bool.true_and, List.all_cons, List.all_nil]
        simpa using isDig_digitChar (n % 10) (by omega)
      · rw [valAcc_append, hv]
        simp [valAcc, digitChar_toNat (n % 10) (by omega)]
        omega

theorem valAcc_ge (l : List Char) : ∀ n, n ≤ valAcc n l := by
  induction l with
  | nil => intro n; simp [valAcc]
  | cons c t ih =>
    intro n
    have h := ih (n * 10 + (c.toNat - 48))
    simp only [valAcc, List.foldl_cons] at *
    omega

theorem parseStep_digits (ds : List Char) :
    ∀ (cur : Nat × Nat) (n : Nat) (rest : List Char),
    ds.all isDig = true → valAcc n ds < U64 →
    parseStep cur (.digits n) (ds ++ rest) = parseStep cur (.digits (valAcc n ds)) rest := by
  induction ds with
  | nil => intro cur n rest _ _; simp [valAcc]
  | cons c t ih =>
    intro cur n rest hall hlt
    have hc : isDig c = true := by
      have := hall; simp only [List.all_cons, Bool.and_eq_true] at this; exact this.1
    have ht : t.all isDig = true := by
      have := hall; simp only [List.all_cons, Bool.and_eq_true] at this; exact this.2
    have hvc : valAcc n (c :: t) = valAcc (n * 10 + (c.toNat - 48)) t := by
      simp [valAcc, List.foldl_cons]
    have hge := valAcc_ge t (n * 10 + (c.toNat - 48))
    rw [hvc] at hlt
    rw [List.cons_append, parseStep_digits_cons, if_pos hc]
    have h1 : n * 10 < U64 := by omega
    have h2 : n * 10 + (c.toNat - 48) < U64 := by omega
    simp only [chkMul, chkAdd, if_pos h1, if_pos h2]
    rw [ih cur _ rest ht hlt, hvc]

theorem parseStep_unitAcc (us : List Char) :
    ∀ (cur : Nat × Nat) (n : Nat) (acc rest : List Char),
    us.all isAsciiAlpha = true →
    parseStep cur (.unit n acc) (us ++ rest) = parseStep cur (.unit n (acc ++ us)) rest := by
  induction us with
  | nil => intro cur n acc rest _; simp
  | cons c t ih =>
    intro cur n acc rest hall
    have hc : isAsciiAlpha c = true := by
      have := hall; simp only [List.all_cons, Bool.and_eq_true] at this; exact this.1
    have ht : t.all isAsciiAlpha = true := by
      have := hall; simp only [List.all_cons, Bool.and_eq_true] at this; exact this.2
    obtain ⟨hd, hw⟩ := alpha_not_dig hc
    rw [List.cons_append, parseStep_unit_cons, if_neg (bool_false_neg hd),
      if_neg (bool_false_neg hw), if_pos hc]
    rw [ih cur n (acc ++ [c]) rest ht]
    simp

theorem parseUnit_eval (cur : Nat × Nat) (v : Nat) (u : String) (cs cn : Nat)
    (hu : unitSecNsec v u = some (cs, cn))
    (hs : cur.1 + cs < U64) (hn : cur.2 + cn ≤ 1000000000) :
    parseUnit cur v u = some (cur.1 + cs, cur.2 + cn) := by
  have hU : U64 = 18446744073709551616 := rfl
  have h1 : cur.2 + cn < U64 := by omega
  simp only [parseUnit, hu, chkAdd, if_pos h1]
  rw [if_neg (by omega)]
  simp only [if_pos hs]

theorem parseStep_items (items : List (Nat × String)) :
    ∀ cur : Nat × Nat,
    (∀ p ∈ items, goodItem p) →
    cur.1 + secSum items < U64 →
    cur.2 + nsecSum items ≤ 1000000000 →
    parseStep cur .next (renderItems items) =
      durationNew (cur.1 + secSum items) (cur.2 + nsecSum items) := by
  induction items with
  | nil =>
    intro cur _ _ _
    rw [show renderItems [] = [] from rfl, parseStep_next_nil]
    simp [secSum, nsecSum]
  | cons p rest ih =>
    obtain ⟨v, u⟩ := p
    intro cur hgood hs hn
    have hU : U64 = 18446744073709551616 := rfl
    obtain ⟨hne, hal, cs, cn, hu, hvle⟩ := hgood (v, u) (List.mem_cons_self _ _)
    have hrest : ∀ q ∈ rest, goodItem q := fun q hq => hgood q (List.mem_cons_of_mem _ hq)
    have hraws : rawSec (v, u) = cs := by simp [rawSec, hu]
    have hrawn : rawNsec (v, u) = cn := by simp [rawNsec, hu]
    have hsec_cons : secSum ((v, u) :: rest) = cs + secSum rest := by
      simp [secSum, hraws]
    have hnsec_cons : nsecSum ((v, u) :: rest) = cn + nsecSum rest := by
      simp [nsecSum, hrawn]
    rw [hsec_cons] at hs ⊢
    rw [hnsec_cons] at hn ⊢
    have hv64 : v < U64 := by rcases hvle with h | h <;> omega
    obtain ⟨hdall, hdne, hdval⟩ := natDecimal_spec v
    rcases hnd : natDecimal v with _ | ⟨c, ds⟩
    · exact absurd hnd hdne
    · rw [hnd] at hdall hdval
      have hc : isDig c = true := by
        simp only [List.all_cons, Bool.and_eq_true] at hdall; exact hdall.1
      have hds : ds.all isDig = true := by
        simp only [List.all_cons, Bool.and_eq_true] at hdall; exact hdall.2
      have hval2 : valAcc (c.toNat - 48) ds = v := by
        simpa [valAcc, List.foldl_cons] using hdval
      simp only [renderItems, hnd]
      rw [List.append_assoc, List.cons_append, parseStep_next_cons, if_pos hc]
      rw [parseStep_digits ds cur (c.toNat - 48) _ hds (by rw [hval2]; exact hv64), hval2]
      rcases hud : u.data with _ | ⟨a, as⟩
      · exact absurd hud hne
      · rw [hud] at hal
        have ha : isAsciiAlpha a = true := by
          simp only [List.all_cons, Bool.and_eq_true] at hal; exact hal.1
        have has : as.all isAsciiAlpha = true := by
          simp only [List.all_cons, Bool.and_eq_true] at hal; exact hal.2
        obtain ⟨had, haw⟩ := alpha_not_dig ha
        rw [List.cons_append, parseStep_digits_cons, if_neg (bool_false_neg had),
          if_neg (bool_false_neg haw), if_pos ha]
        rw [parseStep_unitAcc as cur v [a] _ has]
        have hacc : ([a] ++ as : List Char) = u.data := by rw [hud]; rfl
        rw [hacc]
        have hmk : String.mk u.data = u := stringMk_data u
        rcases rest with _ | ⟨q, qs⟩
        · simp only [List.isEmpty_nil, if_true, List.append_nil]
          rw [parseStep_unit_nil, hmk]
          rw [parseUnit_eval cur v u cs cn hu (by simp [secSum] at hs; omega)
            (by simp [nsecSum] at hn; omega)]
          show durationNew (cur.1 + cs) (cur.2 + cn) = _
          simp [secSum, nsecSum]
        · simp only [List.isEmpty_cons, Bool.false_eq_true, if_false]
          have hsp_d : isDig ' ' = false := by decide
          have hsp_w : rustWs ' ' = true := by decide
          rw [parseStep_unit_cons, if_neg (bool_false_neg hsp_d), if_pos hsp_w, hmk]
          rw [parseUnit_eval cur v u cs cn hu (by omega) (by omega)]
          show parseStep (cur.1 + cs, cur.2 + cn) PMode.next (renderItems (q :: qs)) = _
          rw [ih (cur.1 + cs, cur.2 + cn) hrest (by simp; omega) (by simp; omega)]
          have e1 : cur.1 + cs + secSum (q :: qs) = cur.1 + (cs + secSum (q :: qs)) := by omega
          have e2 : cur.2 + cn + nsecSum (q :: qs) = cur.2 + (cn + nsecSum (q :: qs)) := by omega
          rw [e1, e2]

/-! ### From the formatter's item list to the round trip -/

theorem unitSecNsec_year (n : Nat) : unitSecNsec n (plural "year" n) =
    (chkMul n 31557600).map fun x => (x, 0) := by
  unfold plural; split <;> rfl

theorem unitSecNsec_month (n : Nat) : unitSecNsec n (plural "month" n) =
    (chkMul n 2630016).map fun x => (x, 0) := by
  unfold plural; split <;> rfl

theorem unitSecNsec_day (n : Nat) : unitSecNsec n (plural "day" n) =
    (chkMul n 86400).map fun x => (x, 0) := by
  unfold plural; split <;> rfl

theorem plural_year_data (v : Nat) :
    (plural "year" v).data ≠ [] ∧ (plural "year" v).data.all isAsciiAlpha = true := by
  unfold plural; split <;> exact ⟨by decide, by decide⟩

theorem plural_month_data (v : Nat) :
    (plural "month" v).data ≠ [] ∧ (plural "month" v).data.all isAsciiAlpha = true := by
  unfold plural; split <;> exact ⟨by decide, by decide⟩

theorem plural_day_data (v : Nat) :
    (plural "day" v).data ≠ [] ∧ (plural "day" v).data.all isAsciiAlpha = true := by
  unfold plural; split <;> exact ⟨by decide, by decide⟩

theorem raw_secUnit {v k : Nat} {u : String}
    (hu : unitSecNsec v u = (chkMul v k).map fun x => (x, 0)) (hb : v * k < U64) :
    rawSec (v, u) = v * k ∧ rawNsec (v, u) = 0 := by
  constructor <;> simp [rawSec, rawNsec, hu, chkMul, hb]

theorem raw_nsecUnit {v k : Nat} {u : String}
    (hu : unitSecNsec v u = (chkMul v k).map fun x => (0, x)) (hb : v * k < U64) :
    rawSec (v, u) = 0 ∧ rawNsec (v, u) = v * k := by
  constructor <;> simp [rawSec, rawNsec, hu, chkMul, hb]

theorem goodItem_secUnit {v k : Nat} {u : String} (hk : 0 < k)
    (hu : unitSecNsec v u = (chkMul v k).map fun x => (x, 0)) (hb : v * k < U64)
    (hne : u.data ≠ []) (hal : u.data.all isAsciiAlpha = true) : goodItem (v, u) := by
  refine ⟨hne, hal, v * k, 0, ?_, Or.inl ?_⟩
  · simp [hu, chkMul, hb]
  · calc v = v * 1 := by omega
      _ ≤ v * k := Nat.mul_le_mul_left v hk

theorem goodItem_nsecUnit {v k : Nat} {u : String} (hk : 0 < k)
    (hu : unitSecNsec v u = (chkMul v k).map fun x => (0, x)) (hb : v * k < U64)
    (hne : u.data ≠ []) (hal : u.data.all isAsciiAlpha = true) : goodItem (v, u) := by
  refine ⟨hne, hal, 0, v * k, ?_, Or.inr ?_⟩
  · simp [hu, chkMul, hb]
  · calc v = v * 1 := by omega
      _ ≤ v * k := Nat.mul_le_mul_left v hk

theorem secSum_cons (p : Nat × String) (l : List (Nat × String)) :
    secSum (p :: l) = rawSec p + secSum l := by simp [secSum]

theorem nsecSum_cons (p : Nat × String) (l : List (Nat × String)) :
    nsecSum (p :: l) = rawNsec p + nsecSum l := by simp [nsecSum]

theorem rawSec_zero (u : String) : rawSec (0, u) = 0 ∧ rawNsec (0, u) = 0 := by
  have key : ∀ cs cn, unitSecNsec 0 u = some (cs, cn) → cs = 0 ∧ cn = 0 := by
    intro cs cn h
    unfold unitSecNsec at h
    repeat' split at h
    all_goals simp [chkMul, U64, -Prod.mk_zero_zero] at h
    all_goals omega
  rcases hu : unitSecNsec 0 u with _ | ⟨cs, cn⟩
  · simp [rawSec, rawNsec, hu]
  · obtain ⟨h1, h2⟩ := key cs cn hu
    subst h1; subst h2
    simp [rawSec, rawNsec, hu]

theorem secSum_filter (l : List (Nat × String)) :
    secSum (l.filter fun p => 0 < p.1) = secSum l ∧
    nsecSum (l.filter fun p => 0 < p.1) = nsecSum l := by
  induction l with
  | nil => exact ⟨rfl, rfl⟩
  | cons p rest ih =>
    obtain ⟨v, u⟩ := p
    by_cases hv : 0 < v
    · have hf : ((v, u) :: rest).filter (fun p => 0 < p.1) =
          (v, u) :: rest.filter (fun p => 0 < p.1) := by
        simp [List.filter_cons, hv]
      rw [hf]
      constructor
      · rw [secSum_cons, secSum_cons, ih.1]
      · rw [nsecSum_cons, nsecSum_cons, ih.2]
    · have hv0 : v = 0 := by omega
      subst hv0
      have hf : ((0, u) :: rest).filter (fun p => 0 < p.1) =
          rest.filter (fun p => 0 < p.1) := by
        simp [List.filter_cons]
      rw [hf]
      constructor
      · rw [secSum_cons, ih.1, (rawSec_zero u).1]
        omega
      · rw [nsecSum_cons, ih.2, (rawSec_zero u).2]
        omega

theorem fmtItems_renderItems (l : List (Nat × String)) :
    fmtItems false l = renderItems (l.filter fun p => 0 < p.1) ∧
    fmtItems true l = (if (l.filter fun p => 0 < p.1).isEmpty then []
      else ' ' :: renderItems (l.filter fun p => 0 < p.1)) := by
  induction l with
  | nil => exact ⟨rfl, rfl⟩
  | cons p rest ih =>
    obtain ⟨v, u⟩ := p
    by_cases hv : 0 < v
    · have hf : ((v, u) :: rest).filter (fun p => 0 < p.1) =
          (v, u) :: rest.filter (fun p => 0 < p.1) := by
        simp [List.filter_cons, hv]
      rw [hf]
      constructor
      · show fmtItems false ((v, u) :: rest) = _
        simp only [fmtItems, if_pos hv]
        rw [ih.2]
        simp [renderItems, List.append_assoc]
      · show fmtItems true ((v, u) :: rest) = _
        simp only [fmtItems, if_pos hv]
        rw [ih.2]
        simp [renderItems, List.append_assoc]
    · have hv0 : v = 0 := by omega
      subst hv0
      have hf : ((0, u) :: rest).filter (fun p => 0 < p.1) =
          rest.filter (fun p => 0 < p.1) := by
        simp [List.filter_cons]
      rw [hf]
      have hnv : ¬ (0 : Nat) < 0 := by omega
      constructor
      · show fmtItems false ((0, u) :: rest) = _
        simp only [fmtItems, if_neg hnv]
        exact ih.1
      · show fmtItems true ((0, u) :: rest) = _
        simp only [fmtItems, if_neg hnv]
        exact ih.2

theorem parseStep_start_items (items : List (Nat × String)) (cur : Nat × Nat)
    (hne : items ≠ []) :
    parseStep cur .start (renderItems items) = parseStep cur .next (renderItems items) := by
  rcases items with _ | ⟨⟨v, u⟩, rest⟩
  · exact absurd rfl hne
  · obtain ⟨hdall, hdne, _⟩ := natDecimal_spec v
    rcases hnd : natDecimal v with _ | ⟨c, ds⟩
    · exact absurd hnd hdne
    · rw [hnd] at hdall
      have hc : isDig c = true := by
        simp only [List.all_cons, Bool.and_eq_true] at hdall; exact hdall.1
      simp only [renderItems, hnd]
      rw [List.append_assoc, List.cons_append, parseStep_start_cons,
        parseStep_next_cons, if_pos hc, if_pos hc]

theorem secSum_nil : secSum [] = 0 := rfl

theorem nsecSum_nil : nsecSum [] = 0 := rfl

/-- The value-level round trip for durations: re-parsing humantime's
formatted text recovers the exact seconds and nanoseconds. -/
theorem parse_format_duration (S N : Nat) (h64 : S < U64) (hn : N < 1000000000) :
    parseDuration (formatDuration ⟨S, N⟩) = some ⟨S, N⟩ := by
  by_cases hz : S = 0 ∧ N = 0
  · obtain ⟨rfl, rfl⟩ := hz
    decide
  · have hU : U64 = 18446744073709551616 := rfl
    have hitems : durationItems ⟨S, N⟩ =
        [(S / 31557600, plural "year" (S / 31557600)),
         (S % 31557600 / 2630016, plural "month" (S % 31557600 / 2630016)),
         (S % 31557600 % 2630016 / 86400,
           plural "day" (S % 31557600 % 2630016 / 86400)),
         (S % 31557600 % 2630016 % 86400 / 3600, "h"),
         (S % 31557600 % 2630016 % 86400 % 3600 / 60, "m"),
         (S % 31557600 % 2630016 % 86400 % 60, "s"),
         (N / 1000000, "ms"),
         (N / 1000 % 1000, "us"),
         (N % 1000, "ns")] := rfl
    have hb1 : S / 31557600 * 31557600 < U64 := by omega
    have hb2 : S % 31557600 / 2630016 * 2630016 < U64 := by omega
    have hb3 : S % 31557600 % 2630016 / 86400 * 86400 < U64 := by omega
    have hb4 : S % 31557600 % 2630016 % 86400 / 3600 * 3600 < U64 := by omega
    have hb5 : S % 31557600 % 2630016 % 86400 % 3600 / 60 * 60 < U64 := by omega
    have hb6 : N / 1000000 * 1000000 < U64 := by omega
    have hb7 : N / 1000 % 1000 * 1000 < U64 := by omega
    have hr1 := raw_secUnit (unitSecNsec_year (S / 31557600)) hb1
    have hr2 := raw_secUnit (unitSecNsec_month (S % 31557600 / 2630016)) hb2
    have hr3 := raw_secUnit (unitSecNsec_day (S % 31557600 % 2630016 / 86400)) hb3
    have hr4 := raw_secUnit (u := "h")
      (show unitSecNsec (S % 31557600 % 2630016 % 86400 / 3600) "h" =
        (chkMul (S % 31557600 % 2630016 % 86400 / 3600) 3600).map fun x => (x, 0)
        from rfl) hb4
    have hr5 := raw_secUnit (u := "m")
      (show unitSecNsec (S % 31557600 % 2630016 % 86400 % 3600 / 60) "m" =
        (chkMul (S % 31557600 % 2630016 % 86400 % 3600 / 60) 60).map fun x => (x, 0)
        from rfl) hb5
    have hr6s : rawSec (S % 31557600 % 2630016 % 86400 % 60, "s") =
        S % 31557600 % 2630016 % 86400 % 60 := by
      simp [rawSec,
        show unitSecNsec (S % 31557600 % 2630016 % 86400 % 60) "s" =
          some (S % 31557600 % 2630016 % 86400 % 60, 0) from rfl]
    have hr6n : rawNsec (S % 31557600 % 2630016 % 86400 % 60, "s") = 0 := by
      simp [rawNsec,
        show unitSecNsec (S % 31557600 % 2630016 % 86400 % 60) "s" =
          some (S % 31557600 % 2630016 % 86400 % 60, 0) from rfl]
    have hr7 := raw_nsecUnit (u := "ms")
      (show unitSecNsec (N / 1000000) "ms" =
        (chkMul (N / 1000000) 1000000).map fun x => (0, x) from rfl) hb6
    have hr8 := raw_nsecUnit (u := "us")
      (show unitSecNsec (N / 1000 % 1000) "us" =
        (chkMul (N / 1000 % 1000) 1000).map fun x => (0, x) from rfl) hb7
    have hr9s : rawSec (N % 1000, "ns") = 0 := by
      simp [rawSec, show unitSecNsec (N % 1000) "ns" = some (0, N % 1000) from rfl]
    have hr9n : rawNsec (N % 1000, "ns") = N % 1000 := by
      simp [rawNsec, show unitSecNsec (N % 1000) "ns" = some (0, N % 1000) from rfl]
    have hsec : secSum (durationItems ⟨S, N⟩) = S := by
      rw [hitems, secSum_cons, secSum_cons, secSum_cons, secSum_cons, secSum_cons,
        secSum_cons, secSum_cons, secSum_cons, secSum_cons, secSum_nil,
        hr1.1, hr2.1, hr3.1, hr4.1, hr5.1, hr6s, hr7.1, hr8.1, hr9s]
      omega
    have hnsec : nsecSum (durationItems ⟨S, N⟩) = N := by
      rw [hitems, nsecSum_cons, nsecSum_cons, nsecSum_cons, nsecSum_cons, nsecSum_cons,
        nsecSum_cons, nsecSum_cons, nsecSum_cons, nsecSum_cons, nsecSum_nil,
        hr1.2, hr2.2, hr3.2, hr4.2, hr5.2, hr6n, hr7.2, hr8.2, hr9n]
      omega
    have hgood : ∀ p ∈ durationItems ⟨S, N⟩, goodItem p := by
      rw [hitems]
      intro p hp
      simp only [List.mem_cons, List.not_mem_nil, or_false] at hp
      rcases hp with rfl | rfl | rfl | rfl | rfl | rfl | rfl | rfl | rfl
      · exact goodItem_secUnit (by omega) (unitSecNsec_year _) hb1
          (plural_year_data _).1 (plural_year_data _).2
      · exact goodItem_secUnit (by omega) (unitSecNsec_month _) hb2
          (plural_month_data _).1 (plural_month_data _).2
      · exact goodItem_secUnit (by omega) (unitSecNsec_day _) hb3
          (plural_day_data _).1 (plural_day_data _).2
      · exact goodItem_secUnit (by omega) rfl hb4 (by decide) (by decide)
      · exact goodItem_secUnit (by omega) rfl hb5 (by decide) (by decide)
      · refine ⟨?_, ?_, S % 31557600 % 2630016 % 86400 % 60, 0, rfl, Or.inl le_rfl⟩
        · show ("s" : String).data ≠ []
          decide
        · show ("s" : String).data.all isAsciiAlpha = true
          decide
      · exact goodItem_nsecUnit (by omega) rfl hb6 (by decide) (by decide)
      · exact goodItem_nsecUnit (by omega) rfl hb7 (by decide) (by decide)
      · refine ⟨?_, ?_, 0, N % 1000, rfl, Or.inr le_rfl⟩
        · show ("ns" : String).data ≠ []
          decide
        · show ("ns" : String).data.all isAsciiAlpha = true
          decide
    obtain ⟨fitems, hfit⟩ :
        ∃ l, (durationItems ⟨S, N⟩).filter (fun p => 0 < p.1) = l := ⟨_, rfl⟩
    have hgf : ∀ p ∈ fitems, goodItem p := by
      intro p hp
      rw [← hfit] at hp
      exact hgood p (List.mem_of_mem_filter hp)
    have hsf : secSum fitems = S := by
      rw [← hfit, (secSum_filter _).1, hsec]
    have hnf : nsecSum fitems = N := by
      rw [← hfit, (secSum_filter _).2, hnsec]
    have hfne : fitems ≠ [] := by
      intro h0
      rw [h0, secSum_nil] at hsf
      rw [h0, nsecSum_nil] at hnf
      exact hz ⟨hsf.symm, hnf.symm⟩
    have hcond : (S == 0 && N == 0) = false := by
      by_cases hS : S = 0
      · subst hS
        have hN : N ≠ 0 := fun hN0 => hz ⟨rfl, hN0⟩
        simp [hN]
      · simp [hS]
    have hfmt : formatDuration ⟨S, N⟩ = String.mk (renderItems fitems) := by
      unfold formatDuration
      simp only [hcond, Bool.false_eq_true, if_false]
      rw [(fmtItems_renderItems _).1, hfit]
    rw [hfmt]
    show parseStep (0, 0) PMode.start (renderItems fitems) = some ⟨S, N⟩
    rw [parseStep_start_items fitems (0, 0) hfne]
    have hs1 : ((0, 0) : Nat × Nat).1 + secSum fitems < U64 := by
      show 0 + secSum fitems < U64
      omega
    have hs2 : ((0, 0) : Nat × Nat).2 + nsecSum fitems ≤ 1000000000 := by
      show 0 + nsecSum fitems ≤ 1000000000
      omega
    rw [parseStep_items fitems (0, 0) hgf hs1 hs2]
    show durationNew (0 + secSum fitems) (0 + nsecSum fitems) = some ⟨S, N⟩
    rw [hsf, hnf]
    simp [durationNew, hn]

/-! ## Round-trip lemmas for RFC 3339 timestamps -/

theorem daysInMonth_pos (y : Int) (m : Nat) (h1 : 1 ≤ m) (h2 : m ≤ 12) :
    1 ≤ daysInMonth y m := by
  interval_cases m <;> simp only [daysInMonth] <;> (try split) <;> omega

theorem daysInMonth_le31 (y : Int) (m : Nat) (h1 : 1 ≤ m) (h2 : m ≤ 12) :
    daysInMonth y m ≤ 31 := by
  interval_cases m <;> simp only [daysInMonth] <;> (try split) <;> omega

theorem datePred_dateSucc (y : Int) (m d : Nat) (h1 : 1 ≤ m) (h2 : m ≤ 12)
    (h3 : 1 ≤ d) (h4 : d ≤ daysInMonth y m) :
    datePred (dateSucc y m d).1 (dateSucc y m d).2.1 (dateSucc y m d).2.2 = (y, m, d) := by
  by_cases hd : d < daysInMonth y m
  · have hs : dateSucc y m d = (y, m, d + 1) := by unfold dateSucc; rw [if_pos hd]
    rw [hs]
    show datePred y m (d + 1) = (y, m, d)
    unfold datePred
    rw [if_pos (by omega)]
    rw [show d + 1 - 1 = d from by omega]
  · by_cases hm : m < 12
    · have hs : dateSucc y m d = (y, m + 1, 1) := by
        unfold dateSucc; rw [if_neg hd, if_pos hm]
      rw [hs]
      show datePred y (m + 1) 1 = (y, m, d)
      unfold datePred
      rw [if_neg (by omega), if_pos (by omega)]
      rw [show m + 1 - 1 = m from by omega, show daysInMonth y m = d from by omega]
    · have hm12 : m = 12 := by omega
      subst hm12
      have hs : dateSucc y 12 d = (y + 1, 1, 1) := by
        unfold dateSucc; rw [if_neg hd, if_neg hm]
      rw [hs]
      show datePred (y + 1) 1 1 = (y, 12, d)
      unfold datePred
      rw [if_neg (by omega), if_neg (by omega)]
      rw [show daysInMonth y 12 = 31 from rfl] at hd h4
      rw [show y + 1 - 1 = y from by omega, show (31 : Nat) = d from by omega]

theorem dateSucc_datePred (y : Int) (m d : Nat) (h1 : 1 ≤ m) (h2 : m ≤ 12)
    (h3 : 1 ≤ d) (h4 : d ≤ daysInMonth y m) :
    dateSucc (datePred y m d).1 (datePred y m d).2.1 (datePred y m d).2.2 = (y, m, d) := by
  by_cases hd : 1 < d
  · have hp : datePred y m d = (y, m, d - 1) := by unfold datePred; rw [if_pos hd]
    rw [hp]
    show dateSucc y m (d - 1) = (y, m, d)
    unfold dateSucc
    rw [if_pos (by omega)]
    rw [show d - 1 + 1 = d from by omega]
  · have hd1 : d = 1 := by omega
    subst hd1
    by_cases hm : 1 < m
    · have hp : datePred y m 1 = (y, m - 1, daysInMonth y (m - 1)) := by
        unfold datePred; rw [if_neg (by omega), if_pos hm]
      rw [hp]
      show dateSucc y (m - 1) (daysInMonth y (m - 1)) = (y, m, 1)
      unfold dateSucc
      rw [if_neg (by omega), if_pos (by omega)]
      rw [show m - 1 + 1 = m from by omega]
    · have hm1 : m = 1 := by omega
      subst hm1
      have hp : datePred y 1 1 = (y - 1, 12, 31) := by
        unfold datePred; rw [if_neg (by omega), if_neg (by omega)]
      rw [hp]
      show dateSucc (y - 1) 12 31 = (y, 1, 1)
      unfold dateSucc
      rw [show daysInMonth (y - 1) 12 = 31 from rfl]
      rw [if_neg (by omega), if_neg (by omega)]
      rw [show y - 1 + 1 = y from by omega]

theorem dateSucc_valid (y : Int) (m d : Nat) (h1 : 1 ≤ m) (h2 : m ≤ 12)
    (h3 : 1 ≤ d) (h4 : d ≤ daysInMonth y m) :
    1 ≤ (dateSucc y m d).2.1 ∧ (dateSucc y m d).2.1 ≤ 12 ∧
    1 ≤ (dateSucc y m d).2.2 ∧
    (dateSucc y m d).2.2 ≤ daysInMonth (dateSucc y m d).1 (dateSucc y m d).2.1 := by
  unfold dateSucc
  by_cases hd : d < daysInMonth y m
  · rw [if_pos hd]
    dsimp only
    exact ⟨h1, h2, by omega, by omega⟩
  · by_cases hm : m < 12
    · rw [if_neg hd, if_pos hm]
      dsimp only
      exact ⟨by omega, by omega, by omega, daysInMonth_pos y (m + 1) (by omega) (by omega)⟩
    · rw [if_neg hd, if_neg hm]
      dsimp only
      refine ⟨by omega, by omega, by omega, ?_⟩
      rw [show daysInMonth (y + 1) 1 = 31 from rfl]
      omega

theorem datePred_valid (y : Int) (m d : Nat) (h1 : 1 ≤ m) (h2 : m ≤ 12)
    (h3 : 1 ≤ d) (h4 : d ≤ daysInMonth y m) :
    1 ≤ (datePred y m d).2.1 ∧ (datePred y m d).2.1 ≤ 12 ∧
    1 ≤ (datePred y m d).2.2 ∧
    (datePred y m d).2.2 ≤ daysInMonth (datePred y m d).1 (datePred y m d).2.1 := by
  unfold datePred
  by_cases hd : 1 < d
  · rw [if_pos hd]
    dsimp only
    exact ⟨h1, h2, by omega, by omega⟩
  · by_cases hm : 1 < m
    · rw [if_neg hd, if_pos hm]
      dsimp only
      exact ⟨by omega, by omega, daysInMonth_pos y (m - 1) (by omega) (by omega), le_rfl⟩
    · rw [if_neg hd, if_neg hm]
      dsimp only
      refine ⟨by omega, by omega, by omega, ?_⟩
      rw [show daysInMonth (y - 1) 12 = 31 from rfl]

theorem addSecsDT_valid (dt : NaiveDT) (δ : Int) (hv : validDT dt)
    (hδ : δ.natAbs < 86400) :
    validDT (addSecsDT dt δ) ∧ (addSecsDT dt δ).nanos = dt.nanos := by
  obtain ⟨y, m, d, s, na⟩ := dt
  simp only [validDT] at hv
  obtain ⟨h1, h2, h3, h4, h5⟩ := hv
  unfold addSecsDT
  dsimp only
  by_cases hneg : (s : Int) + δ < 0
  · rw [if_pos hneg]
    obtain ⟨p1, p2, p3, p4⟩ := datePred_valid y m d h1 h2 h3 h4
    exact ⟨⟨p1, p2, p3, p4,
      by show ((s : Int) + δ + 86400).toNat < 86400; omega⟩, rfl⟩
  · rw [if_neg hneg]
    by_cases hover : 86400 ≤ (s : Int) + δ
    · rw [if_pos hover]
      obtain ⟨p1, p2, p3, p4⟩ := dateSucc_valid y m d h1 h2 h3 h4
      exact ⟨⟨p1, p2, p3, p4,
        by show ((s : Int) + δ - 86400).toNat < 86400; omega⟩, rfl⟩
    · rw [if_neg hover]
      exact ⟨⟨h1, h2, h3, h4,
        by show ((s : Int) + δ).toNat < 86400; omega⟩, rfl⟩

theorem addSecsDT_cancel (dt : NaiveDT) (δ : Int) (hv : validDT dt)
    (hδ : δ.natAbs < 86400) :
    addSecsDT (addSecsDT dt δ) (-δ) = dt := by
  obtain ⟨y, m, d, s, na⟩ := dt
  simp only [validDT] at hv
  obtain ⟨h1, h2, h3, h4, h5⟩ := hv
  by_cases hneg : (s : Int) + δ < 0
  · have ha : addSecsDT ⟨y, m, d, s, na⟩ δ =
        ⟨(datePred y m d).1, (datePred y m d).2.1, (datePred y m d).2.2,
         ((s : Int) + δ + 86400).toNat, na⟩ := by
      unfold addSecsDT
      dsimp only
      rw [if_pos hneg]
    rw [ha]
    unfold addSecsDT
    dsimp only
    rw [if_neg (by omega), if_pos (by omega)]
    rw [dateSucc_datePred y m d h1 h2 h3 h4]
    dsimp only
    simp only [NaiveDT.mk.injEq, eq_self_iff_true, true_and, and_true]
    omega
  · by_cases hover : 86400 ≤ (s : Int) + δ
    · have ha : addSecsDT ⟨y, m, d, s, na⟩ δ =
          ⟨(dateSucc y m d).1, (dateSucc y m d).2.1, (dateSucc y m d).2.2,
           ((s : Int) + δ - 86400).toNat, na⟩ := by
        unfold addSecsDT
        dsimp only
        rw [if_neg hneg, if_pos hover]
      rw [ha]
      unfold addSecsDT
      dsimp only
      rw [if_pos (by omega)]
      rw [datePred_dateSucc y m d h1 h2 h3 h4]
      dsimp only
      simp only [NaiveDT.mk.injEq, eq_self_iff_true, true_and, and_true]
      omega
    · have ha : addSecsDT ⟨y, m, d, s, na⟩ δ =
          ⟨y, m, d, ((s : Int) + δ).toNat, na⟩ := by
        unfold addSecsDT
        dsimp only
        rw [if_neg hneg, if_neg hover]
      rw [ha]
      unfold addSecsDT
      dsimp only
      rw [if_neg (by omega), if_neg (by omega)]
      simp only [NaiveDT.mk.injEq, eq_self_iff_true, true_and, and_true]
      omega

theorem addSecsDT_zero (dt : NaiveDT) (hv : validDT dt) : addSecsDT dt 0 = dt := by
  obtain ⟨y, m, d, s, na⟩ := dt
  simp only [validDT] at hv
  unfold addSecsDT
  dsimp only
  rw [if_neg (by omega), if_neg (by omega)]
  simp only [NaiveDT.mk.injEq, eq_self_iff_true, true_and, and_true]
  omega

theorem digitVal_digitChar : ∀ k, k < 10 → digitVal (digitChar k) = some k := by decide

theorem read2_pad2 (n : Nat) (rest : List Char) (h : n ≤ 99) :
    read2 (pad2 n ++ rest) = some (n, rest) := by
  show read2 (digitChar (n / 10 % 10) :: digitChar (n % 10) :: rest) = some (n, rest)
  simp only [read2]
  rw [digitVal_digitChar _ (by omega), digitVal_digitChar _ (by omega)]
  show some (n / 10 % 10 * 10 + n % 10, rest) = some (n, rest)
  rw [show n / 10 % 10 * 10 + n % 10 = n from by omega]

theorem read4_pad4 (n : Nat) (rest : List Char) (h : n ≤ 9999) :
    read4 (pad4 n ++ rest) = some (n, rest) := by
  show read4 (digitChar (n / 1000 % 10) :: digitChar (n / 100 % 10) ::
    digitChar (n / 10 % 10) :: digitChar (n % 10) :: rest) = some (n, rest)
  simp only [read4]
  rw [digitVal_digitChar _ (by omega), digitVal_digitChar _ (by omega),
    digitVal_digitChar _ (by omega), digitVal_digitChar _ (by omega)]
  show some (n / 1000 % 10 * 1000 + n / 100 % 10 * 100 + n / 10 % 10 * 10 + n % 10,
    rest) = some (n, rest)
  rw [show n / 1000 % 10 * 1000 + n / 100 % 10 * 100 + n / 10 % 10 * 10 + n % 10 = n
    from by omega]

theorem expectChar_same (c : Char) (rest : List Char) :
    expectChar c (c :: rest) = some rest := by simp [expectChar]

theorem yearChars_eq (y : Int) (h0 : 0 ≤ y) (h9 : y ≤ 9999) :
    yearChars y = pad4 y.toNat := by
  unfold yearChars
  rw [if_pos ⟨h0, h9⟩]

theorem readOffset_offsetChars (off : Int) (rest : List Char)
    (hb : off.natAbs < 86400) (hm : off % 60 = 0) :
    readOffset (offsetChars off ++ rest) = some (off, rest) := by
  have h60n : (60 : Nat) ∣ off.natAbs := by
    have h := Int.natAbs_dvd_natAbs.mpr (Int.dvd_of_emod_eq_zero hm)
    simpa using h
  have h60 : off.natAbs % 60 = 0 := by omega
  by_cases h0 : off = 0
  · subst h0
    show readOffset ('Z' :: rest) = some (0, rest)
    simp [readOffset]
  · have hoc : offsetChars off = (if off < 0 then '-' else '+') ::
        (pad2 (off.natAbs / 3600) ++ ':' :: pad2 (off.natAbs % 3600 / 60)) := by
      unfold offsetChars
      rw [if_neg h0]
    rw [hoc]
    have e1 : read2 (pad2 (off.natAbs / 3600) ++
        (':' :: (pad2 (off.natAbs % 3600 / 60) ++ rest))) =
        some (off.natAbs / 3600, ':' :: (pad2 (off.natAbs % 3600 / 60) ++ rest)) :=
      read2_pad2 _ _ (by omega)
    have e2 : read2 (pad2 (off.natAbs % 3600 / 60) ++ rest) =
        some (off.natAbs % 3600 / 60, rest) := read2_pad2 _ _ (by omega)
    have esum : off.natAbs / 3600 * 3600 + off.natAbs % 3600 / 60 * 60 = off.natAbs := by
      omega
    by_cases hneg : off < 0
    · rw [if_pos hneg]
      show readOffset ('-' ::
        ((pad2 (off.natAbs / 3600) ++ ':' :: pad2 (off.natAbs % 3600 / 60)) ++ rest)) =
        some (off, rest)
      simp only [readOffset, List.cons_append, List.append_assoc]
      rw [if_neg (by decide), if_pos (by decide)]
      simp only [e1, expectChar_same, e2, esum, if_pos hb, if_pos rfl]
      simp
      rw [abs_of_neg hneg, neg_neg]
    · rw [if_neg hneg]
      show readOffset ('+' ::
        ((pad2 (off.natAbs / 3600) ++ ':' :: pad2 (off.natAbs % 3600 / 60)) ++ rest)) =
        some (off, rest)
      simp only [readOffset, List.cons_append, List.append_assoc]
      rw [if_neg (by decide), if_pos (by decide)]
      simp only [e1, expectChar_same, e2, esum, if_pos hb]
      rw [if_neg (show ¬ ('+' : Char) = '-' from by decide)]
      rw [show ((off.natAbs : Nat) : Int) = off from by omega]

theorem readFrac_offsetChars (off : Int) :
    readFrac (offsetChars off) = some (0, offsetChars off) := by
  unfold offsetChars
  by_cases h0 : off = 0
  · rw [if_pos h0]
    rfl
  · rw [if_neg h0]
    by_cases hneg : off < 0
    · rw [if_pos hneg]
      rfl
    · rw [if_neg hneg]
      rfl

/-- Parsing back the rendered RFC 3339 text recovers the local civil value
and the offset; the resulting naive UTC value is local minus offset. -/
theorem parseRfc3339_render (y : Int) (m d s : Nat) (off : Int)
    (hv : validDT ⟨y, m, d, s, 0⟩) (hy0 : 0 ≤ y) (hy9 : y ≤ 9999)
    (hb : off.natAbs < 86400) (hm : off % 60 = 0) :
    parseRfc3339 (String.mk (dtChars ⟨y, m, d, s, 0⟩ ++ offsetChars off)) =
      some ⟨addSecsDT ⟨y, m, d, s, 0⟩ (-off), off⟩ := by
  simp only [validDT] at hv
  obtain ⟨h1, h2, h3, h4, h5⟩ := hv
  have hL : dtChars ⟨y, m, d, s, 0⟩ ++ offsetChars off =
      pad4 y.toNat ++ ('-' :: (pad2 m ++ ('-' :: (pad2 d ++ ('T' :: (pad2 (s / 3600) ++
        (':' :: (pad2 (s % 3600 / 60) ++ (':' :: (pad2 (s % 60) ++
          offsetChars off)))))))))) := by
    unfold dtChars
    dsimp only
    rw [yearChars_eq y hy0 hy9, if_neg (by omega), Nat.add_zero]
    simp [List.append_assoc]
  have Hy : ∀ r, read4 (pad4 y.toNat ++ r) = some (y.toNat, r) :=
    fun r => read4_pad4 _ r (by omega)
  have Hm : ∀ r, read2 (pad2 m ++ r) = some (m, r) :=
    fun r => read2_pad2 m r (by omega)
  have Hd : ∀ r, read2 (pad2 d ++ r) = some (d, r) := by
    have hd31 : d ≤ 31 := le_trans h4 (daysInMonth_le31 y m h1 h2)
    exact fun r => read2_pad2 d r (by omega)
  have Hh : ∀ r, read2 (pad2 (s / 3600) ++ r) = some (s / 3600, r) :=
    fun r => read2_pad2 _ r (by omega)
  have Hmi : ∀ r, read2 (pad2 (s % 3600 / 60) ++ r) = some (s % 3600 / 60, r) :=
    fun r => read2_pad2 _ r (by omega)
  have Hs : ∀ r, read2 (pad2 (s % 60) ++ r) = some (s % 60, r) :=
    fun r => read2_pad2 _ r (by omega)
  have Ho : readOffset (offsetChars off) = some (off, []) := by
    have h := readOffset_offsetChars off [] hb hm
    rwa [List.append_nil] at h
  show parseRfc3339 (String.mk (dtChars ⟨y, m, d, s, 0⟩ ++ offsetChars off)) = _
  have hdata : (String.mk (dtChars ⟨y, m, d, s, 0⟩ ++ offsetChars off)).data =
      dtChars ⟨y, m, d, s, 0⟩ ++ offsetChars off := rfl
  simp only [parseRfc3339, hdata, hL, Hy, expectChar_same, Hm, Hd]
  rw [if_pos (show True ∨ ('T' : Char) = 't' ∨ ('T' : Char) = ' ' from Or.inl trivial)]
  simp only [Hh, expectChar_same, Hmi, Hs, readFrac_offsetChars, Ho]
  rw [if_pos (show True ∧ 1 ≤ m ∧ m ≤ 12 ∧ 1 ≤ d ∧
    d ≤ daysInMonth (y.toNat : Int) m ∧ s / 3600 ≤ 23 ∧ s % 3600 / 60 ≤ 59 ∧
    s % 60 ≤ 60 from by
      refine ⟨trivial, h1, h2, h3, ?_, by omega, by omega, by omega⟩
      rw [Int.toNat_of_nonneg hy0]
      exact h4)]
  have h60f : ¬ (s % 60 == 60) = true := by simp only [beq_iff_eq]; omega
  rw [if_neg h60f, if_neg h60f]
  rw [show s / 3600 * 3600 + s % 3600 / 60 * 60 + s % 60 = s from by omega,
    Int.toNat_of_nonneg hy0]

/-- Round trip for a fixed-offset timestamp whose value is exactly
representable in the emitted text. -/
theorem parse_format_fixed (fo : DateTimeFO) (hv : validDT fo.dt)
    (hna : fo.dt.nanos = 0) (hb : fo.offset.natAbs < 86400)
    (hm : fo.offset % 60 = 0) (hy0 : 0 ≤ (addSecsDT fo.dt fo.offset).year)
    (hy9 : (addSecsDT fo.dt fo.offset).year ≤ 9999) :
    parseRfc3339 (toRfc3339Secs fo.dt fo.offset) = some fo := by
  obtain ⟨dt, off⟩ := fo
  obtain ⟨hlv, hln⟩ := addSecsDT_valid dt off hv hb
  have hlo : addSecsDT dt off = ⟨(addSecsDT dt off).year, (addSecsDT dt off).month,
      (addSecsDT dt off).day, (addSecsDT dt off).secs, 0⟩ := by
    have h0 : (addSecsDT dt off).nanos = 0 := by rw [hln]; exact hna
    rw [← h0]
  rw [hlo] at hlv
  show parseRfc3339 (String.mk (dtChars (addSecsDT dt off) ++ offsetChars off)) = _
  rw [hlo]
  rw [parseRfc3339_render _ _ _ _ _ hlv hy0 hy9 hb hm]
  rw [← hlo, addSecsDT_cancel dt off hv hb]

/-- Round trip for a UTC timestamp: the `Utc` offset is zero and the local
value is the naive UTC value itself. -/
theorem parse_format_utc (dt : NaiveDT) (hv : validDT dt) (hna : dt.nanos = 0)
    (hy0 : 0 ≤ dt.year) (hy9 : dt.year ≤ 9999) :
    parseRfc3339 (toRfc3339Secs dt 0) = some ⟨dt, 0⟩ := by
  have h0 : addSecsDT dt 0 = dt := addSecsDT_zero dt hv
  exact parse_format_fixed ⟨dt, 0⟩ hv hna
    (show (0 : Int).natAbs < 86400 from by decide)
    (show (0 : Int) % 60 = 0 from by decide)
    (show 0 ≤ (addSecsDT dt 0).year from by rw [h0]; exact hy0)
    (show (addSecsDT dt 0).year ≤ 9999 from by rw [h0]; exact hy9)

/-! ## Claims -/

/-- C6: decoding the text `"15 seconds"` as a `Duration` yields exactly
15 seconds and 0 nanoseconds, and encoding that duration yields exactly the
canonical short form `"15s"`. -/
theorem c6_duration_15s :
    deDuration (.str "15 seconds") = .ok ⟨15, 0⟩ ∧
    serDuration (Serde.ofVal ⟨15, 0⟩) = .sStr "15s" ∧
    formatDuration ⟨15, 0⟩ ≠ "15 seconds" :=
  ⟨rfl, rfl, by decide⟩

/-- C7: unwrapping the conversion wrapper returns the original value with no
failure mode, and the by-value and by-reference `Serialize` impls produce
identical output for every value of each supported type. -/
theorem c7_wrapper_transparency :
    (∀ (α : Type) (v : α), (Serde.ofVal v).into_inner = v) ∧
    (∀ d : Duration, serDuration (Serde.ofVal d) = serDurationRef (Serde.ofVal d)) ∧
    (∀ t : NaiveDT, serUtc (Serde.ofVal t) = serUtcRef (Serde.ofVal t)) ∧
    (∀ fo : DateTimeFO, serFixed (Serde.ofVal fo) = serFixedRef (Serde.ofVal fo)) :=
  ⟨fun _ _ => rfl, fun _ => rfl, fun _ => rfl, fun _ => rfl⟩

/-- C8 counterexample: the claim asserts that `Serde<T>` supports ordering
whenever the inner type does, but the derive list
`#[derive(Copy, Clone, Eq, Hash, PartialEq)]` contains neither `PartialOrd`
nor `Ord`, so wrapped values cannot be compared for order at all. -/
theorem c8_ordering_counterexample :
    ¬ ("PartialOrd" ∈ serdeDerives ∨ "Ord" ∈ serdeDerives) := by decide

/-- C8 amended: the wrapper is passthrough-transparent for debug/printing
(the `Debug` impl delegates to the inner value) and for equality and hashing
(the derived `PartialEq`/`Hash` act on the single inner field), but ordering
is not provided: `PartialOrd`/`Ord` are absent from the derive list. -/
theorem c8_passthrough_amended :
    (∀ (α : Type) (f : α → String) (w : Serde α), serdeDebugFmt f w = f w.val) ∧
    (∀ (α : Type) (eq : α → α → Bool) (a b : Serde α), serdeBeq eq a b = eq a.val b.val) ∧
    (∀ (α : Type) (h : α → Nat) (w : Serde α), serdeHash h w = h w.val) ∧
    "Eq" ∈ serdeDerives ∧ "PartialEq" ∈ serdeDerives ∧ "Hash" ∈ serdeDerives ∧
    "PartialOrd" ∉ serdeDerives ∧ "Ord" ∉ serdeDerives :=
  ⟨fun _ _ _ => rfl, fun _ _ _ _ => rfl, fun _ _ _ => rfl,
   by decide, by decide, by decide, by decide, by decide⟩

/-- C10: the option module's serialize function and the `Serialize` impls
for the wrapper over an `Option` make the same calls on the host serializer
for every optional value of each supported type. -/
theorem c10_option_serialize_equiv :
    (∀ o : Option Duration,
      optionModSerialize serDurationRef o = serOptDurationRef (Serde.ofVal o)) ∧
    (∀ o : Option NaiveDT,
      optionModSerialize serUtcRef o = serOptUtcRef (Serde.ofVal o)) ∧
    (∀ o : Option DateTimeFO,
      optionModSerialize serFixedRef o = serOptFixedRef (Serde.ofVal o)) := by
  refine ⟨?_, ?_, ?_⟩ <;> intro o <;> cases o <;> rfl

/-- C5: encoding an absent optional always emits `serialize_none` (the
format's null), decoding the format's null or an absent field always yields
`None` and never an error, and a present non-null value delegates to the
scalar codec. -/
theorem c5_option_absence :
    (∀ (α : Type) (ser : Serde α → SerOut), optionModSerialize ser none = SerOut.sNone) ∧
    serOptDurationRef (Serde.ofVal none) = SerOut.sNone ∧
    serOptUtcRef (Serde.ofVal none) = SerOut.sNone ∧
    serOptFixedRef (Serde.ofVal none) = SerOut.sNone ∧
    (∀ (α : Type) (de : DValue → Except DeError α),
      optionDe de DValue.null = .ok none ∧
      optionFieldDe de none = .ok none ∧
      ∀ v : DValue, v ≠ DValue.null → optionDe de v = (de v).map some) ∧
    (∀ (α : Type) (ser : Serde α → SerOut) (x : α),
      optionModSerialize ser (some x) = SerOut.sSome (ser (Serde.ofVal x))) := by
  refine ⟨fun _ _ => rfl, rfl, rfl, rfl, fun α de => ⟨rfl, rfl, fun v hv => ?_⟩,
    fun _ _ _ => rfl⟩
  cases v with
  | null => exact absurd rfl hv
  | str s => rfl
  | int n => rfl
  | bool b => rfl

/-- C5 witness: the delegation clause at the concrete present value
`"15 seconds"`. -/
theorem c5_option_absence_witness :
    optionDe deDuration (DValue.str "15 seconds") =
      (deDuration (DValue.str "15 seconds")).map some :=
  (c5_option_absence.2.2.2.2.1 Duration deDuration).2.2 _ (by decide)

/-- C9: the required-field deserializers request a string and implement only
the string visitor, so every non-string input — including a native number —
is rejected with an error rather than interpreted as a value. -/
theorem c9_nonstring_rejected :
    (∀ v : DValue, v.isStr = false →
      (deDuration v).isOk = false ∧ (deUtc v).isOk = false ∧
      (deFixed v).isOk = false) ∧
    deDuration (.int 15) = .error (.invalidType (.signed 15) "a duration") ∧
    deUtc (.int 15) = .error (.invalidType (.signed 15) "a timestamp") ∧
    deFixed (.int 15) = .error (.invalidType (.signed 15) "a timestamp") := by
  refine ⟨fun v h => ?_, rfl, rfl, rfl⟩
  cases v with
  | str s => exact absurd h (by simp [DValue.isStr])
  | int n => exact ⟨rfl, rfl, rfl⟩
  | bool b => exact ⟨rfl, rfl, rfl⟩
  | null => exact ⟨rfl, rfl, rfl⟩

/-- C9 witness: a numeric seconds value is rejected by all three
deserializers. -/
theorem c9_nonstring_witness :
    (deDuration (DValue.int 15)).isOk = false ∧
    (deUtc (DValue.int 15)).isOk = false ∧
    (deFixed (DValue.int 15)).isOk = false :=
  c9_nonstring_rejected.1 (DValue.int 15) rfl

/-- C2: every text rejected by the duration grammar or the RFC 3339 parser
makes decode fail with an invalid-value error carrying the offending text
and the visitor's expecting description (`"a duration"` / `"a timestamp"`);
no default or zero value is returned. -/
theorem c2_invalid_text_error :
    (∀ s : String, parseDuration s = none →
      deDuration (.str s) = .error (.invalidValue (.str s) "a duration")) ∧
    (∀ s : String, parseRfc3339 s = none →
      deUtc (.str s) = .error (.invalidValue (.str s) "a timestamp")) ∧
    (∀ s : String, parseRfc3339 s = none →
      deFixed (.str s) = .error (.invalidValue (.str s) "a timestamp")) := by
  refine ⟨fun s h => ?_, fun s h => ?_, fun s h => ?_⟩ <;>
    simp [deDuration, deUtc, deFixed, h]

/-- C2 witness: the spec's own malformed examples. -/
theorem c2_invalid_text_witness :
    deDuration (.str "not a duration") =
      .error (.invalidValue (.str "not a duration") "a duration") ∧
    deUtc (.str "not a date") =
      .error (.invalidValue (.str "not a date") "a timestamp") ∧
    deFixed (.str "not a date") =
      .error (.invalidValue (.str "not a date") "a timestamp") :=
  ⟨c2_invalid_text_error.1 _ (by decide), c2_invalid_text_error.2.1 _ (by decide),
   c2_invalid_text_error.2.2 _ (by decide)⟩

/-- C3: UTC decoding accepts any valid RFC 3339 offset and normalizes the
value to UTC, discarding the offset without checking it against zero; it
fails exactly when the RFC 3339 parse fails.  The concrete case shows a
`+02:00` input being accepted and reinterpreted in UTC. -/
theorem c3_utc_decode_offset :
    (∀ (s : String) (fo : DateTimeFO),
      parseRfc3339 s = some fo → deUtc (.str s) = .ok fo.dt) ∧
    (∀ s : String, parseRfc3339 s = none → (deUtc (.str s)).isOk = false) ∧
    deUtc (.str "2018-05-11T18:28:30+02:00") = .ok ⟨2018, 5, 11, 59310, 0⟩ := by
  refine ⟨fun s fo h => ?_, fun s h => ?_, rfl⟩ <;>
    simp [deUtc, h, Except.isOk, Except.toBool]

/-- C3 witness: the general clause applied at the `+02:00` input. -/
theorem c3_utc_decode_witness :
    deUtc (.str "2018-05-11T18:28:30+02:00") =
      .ok (DateTimeFO.dt ⟨⟨2018, 5, 11, 59310, 0⟩, 7200⟩) :=
  c3_utc_decode_offset.1 _ ⟨⟨2018, 5, 11, 59310, 0⟩, 7200⟩ (by decide)

/-- C1 counterexample: a UTC timestamp with fractional seconds does not
round-trip.  Encoding 1970-01-01T00:00:00.5Z uses `SecondsFormat::Secs`,
which truncates the nanoseconds; decoding the text yields the instant at the
whole second, not the original. -/
theorem c1_roundtrip_counterexample :
    deUtc (.str (toRfc3339Secs ⟨1970, 1, 1, 0, 500000000⟩ 0)) =
      .ok ⟨1970, 1, 1, 0, 0⟩ ∧
    deUtc (.str (toRfc3339Secs ⟨1970, 1, 1, 0, 500000000⟩ 0)) ≠
      .ok ⟨1970, 1, 1, 0, 500000000⟩ := by
  have he : deUtc (.str (toRfc3339Secs ⟨1970, 1, 1, 0, 500000000⟩ 0)) =
      .ok ⟨1970, 1, 1, 0, 0⟩ := rfl
  refine ⟨he, fun h => ?_⟩
  rw [he] at h
  simp at h

/-- C1 amended: encode-then-decode is the identity for every `Duration`
(exact second/nanosecond equality), and for every timestamp value that the
emitted text can represent exactly: zero sub-second nanoseconds, and (for
the rendered local date-time) a year within 0000–9999; the fixed-offset kind
additionally requires a whole-minute offset (RFC 3339 offsets are `HH:MM`)
and returns both the exact instant and the exact offset. -/
theorem c1_roundtrip_amended :
    (∀ d : Duration, d.secs < U64 → d.nanos < 1000000000 →
      deDuration (.str (formatDuration d)) = .ok d) ∧
    (∀ dt : NaiveDT, validDT dt → dt.nanos = 0 → 0 ≤ dt.year → dt.year ≤ 9999 →
      deUtc (.str (toRfc3339Secs dt 0)) = .ok dt) ∧
    (∀ fo : DateTimeFO, validDT fo.dt → fo.dt.nanos = 0 →
      fo.offset.natAbs < 86400 → fo.offset % 60 = 0 →
      0 ≤ (addSecsDT fo.dt fo.offset).year →
      (addSecsDT fo.dt fo.offset).year ≤ 9999 →
      deFixed (.str (toRfc3339Secs fo.dt fo.offset)) = .ok fo) := by
  refine ⟨fun d h1 h2 => ?_, fun dt hv hna hy0 hy9 => ?_,
    fun fo hv hna hb hm hy0 hy9 => ?_⟩
  · obtain ⟨S, N⟩ := d
    simp [deDuration, parse_format_duration S N h1 h2]
  · simp [deUtc, parse_format_utc dt hv hna hy0 hy9]
  · simp [deFixed, parse_format_fixed fo hv hna hb hm hy0 hy9]

/-- C1 witness: the amended round trip at concrete inputs of all three
kinds. -/
theorem c1_roundtrip_witness :
    deDuration (.str (formatDuration ⟨90100, 123456789⟩)) = .ok ⟨90100, 123456789⟩ ∧
    deUtc (.str (toRfc3339Secs ⟨2018, 5, 11, 66510, 0⟩ 0)) =
      .ok ⟨2018, 5, 11, 66510, 0⟩ ∧
    deFixed (.str (toRfc3339Secs ⟨2018, 5, 11, 59310, 0⟩ 7200)) =
      .ok ⟨⟨2018, 5, 11, 59310, 0⟩, 7200⟩ :=
  ⟨c1_roundtrip_amended.1 ⟨90100, 123456789⟩ (by decide) (by decide),
   c1_roundtrip_amended.2.1 ⟨2018, 5, 11, 66510, 0⟩ (by decide) (by decide)
     (by decide) (by decide),
   c1_roundtrip_amended.2.2 ⟨⟨2018, 5, 11, 59310, 0⟩, 7200⟩ (by decide) (by decide)
     (by decide) (by decide) (by decide) (by decide)⟩

/-- C4: the fixed-offset encoder renders the offset of the stored value —
`Z` exactly when the offset is zero, otherwise sign and `HH:MM` — and does
not normalize to UTC: decoding `"2018-05-11T18:28:30+02:00"` and re-encoding
returns the same `+02:00` text. -/
theorem c4_fixed_offset_encoding :
    (∀ off : Int, offsetChars off = ['Z'] ↔ off = 0) ∧
    (∀ fo : DateTimeFO, serFixed (Serde.ofVal fo) =
      .sStr (String.mk (dtChars (addSecsDT fo.dt fo.offset) ++ offsetChars fo.offset))) ∧
    deFixed (.str "2018-05-11T18:28:30+02:00") =
      .ok ⟨⟨2018, 5, 11, 59310, 0⟩, 7200⟩ ∧
    serFixed (Serde.ofVal ⟨⟨2018, 5, 11, 59310, 0⟩, 7200⟩) =
      .sStr "2018-05-11T18:28:30+02:00" := by
  refine ⟨fun off => ⟨fun h => ?_, fun h => by subst h; rfl⟩, fun fo => rfl, rfl, rfl⟩
  by_contra h0
  unfold offsetChars at h
  rw [if_neg h0] at h
  by_cases hneg : off < 0
  · rw [if_pos hneg] at h
    simp at h
  · rw [if_neg hneg] at h
    simp at h
